import Mathlib

/-!
# premark: watch list, event handling, viewer sessions and sidebar order

A shallow embedding of `main.go`.  The three goroutines started by `main`
(the re-glob ticker, the watcher-event consumer and the `/watch` session
loop) are sequential code around calls into the environment; each is
embedded as a function from the answers of the environment to the calls
it makes (its effects) and to the state it leaves.

The filesystem watcher is `fsnotify.Watcher`.  Only two of its methods are
called by the program: `WatchList()` and `Add(name)`.  Its state is embedded
as the list of watched paths.  The program has no list of its own: what it
reads with `WatchList()` is the list the watcher keeps, and the watcher
itself takes a path out of that list when it reports the path removed or
renamed (`Watcher.deliver`).
-/

namespace Premark

/-! ## Events of the filesystem watcher -/

/-- Bit of `fsnotify.Op` for a created path. -/
def Create : Nat := 1
/-- Bit of `fsnotify.Op` for a written path. -/
def Write : Nat := 2
/-- Bit of `fsnotify.Op` for a removed path. -/
def Remove : Nat := 4
/-- Bit of `fsnotify.Op` for a renamed path. -/
def Rename : Nat := 8
/-- Bit of `fsnotify.Op` for a change of attributes. -/
def Chmod : Nat := 16

/-- An `fsnotify.Event`: the path it is about and the operation bit set. -/
structure Event where
  Name : String
  Op : Nat
deriving DecidableEq, Repr

/-! ## Effects of the watcher goroutines -/

/-- What the re-glob goroutine and the event goroutine do to the outside:
the lines they print, the calls they make on the watcher, the sends on
`eventChan`, and `os.Exit`. -/
inductive Effect where
  /-- The line of `fmt.Println("failed to glob for files", err)` -/
  | failedToGlob (err : String)
  /-- The line of `fmt.Printf("watching %s: %s?filename=%s\n", filename, baseURL, filename)` -/
  | watching (filename : String) (baseURL : String)
  /-- The call `watcher.Add(name)` -/
  | add (name : String)
  /-- The line of `fmt.Println("failed to add to watches", err)` -/
  | failedToAdd (err : String)
  /-- The line of `fmt.Printf("no longer watching %s\n", event.Name)` -/
  | noLongerWatching (name : String)
  /-- The send `eventChan <- event` -/
  | send (event : Event)
  /-- The call `os.Exit(code)` -/
  | osExit (code : Nat)
deriving DecidableEq, Repr

/-- The text a printing effect writes to standard output (nothing for the
other effects). -/
def Effect.text : Effect → String
  | .failedToGlob err => "failed to glob for files " ++ err ++ "\n"
  | .watching filename baseURL =>
      "watching " ++ filename ++ ": " ++ baseURL ++ "?filename=" ++ filename ++ "\n"
  | .failedToAdd err => "failed to add to watches " ++ err ++ "\n"
  | .noLongerWatching name => "no longer watching " ++ name ++ "\n"
  | _ => ""

/-- The state a goroutine leaves: the watch list held by the watcher, the
effects performed in order, and the exit status if `os.Exit` was called. -/
structure Outcome where
  watchList : List String
  effects : List Effect
  exit : Option Nat
deriving DecidableEq, Repr

/-! ## The watcher and `lo.Contains` -/

/-- Embedding of `lo.Contains(collection, element)`: a linear scan for an equal element. -/
def lo.Contains : List String → String → Bool
  | [], _ => false
  | item :: rest, element => if item = element then true else lo.Contains rest element

/-- A successful `watcher.Add(name)` on the watch list: the path is watched
afterwards, and a path is watched at most once (adding a watched path is a
no-op, as fsnotify documents). -/
def Watcher.Add (watchList : List String) (name : String) : List String :=
  if name ∈ watchList then watchList else watchList ++ [name]

/-! ## The re-glob goroutine -/

/-- The glob loop of one tick: `doublestar.FilepathGlob` is called for each
field of the `-w` flag in order and the matches are appended; the first
failing pattern ends the loop with its error. -/
def globFilenames (FilepathGlob : String → Except String (List String)) :
    List String → List String → Except String (List String)
  | [], filenames => .ok filenames
  | glob :: rest, filenames =>
    match FilepathGlob glob with
    | .error err => .error err
    | .ok matched => globFilenames FilepathGlob rest (filenames ++ matched)

/-- The loop "Add files to watchlist" of one tick, over the matched
`filenames`, from the watch list `watchList`.  `addErr name` is the answer of
`watcher.Add(name)`: `none` for success, `some err` for an error. -/
def addFiles (baseURL : String) (addErr : String → Option String) :
    List String → List String → Outcome
  | [], watchList => ⟨watchList, [], none⟩
  | filename :: rest, watchList =>
    if lo.Contains watchList filename then
      addFiles baseURL addErr rest watchList
    else
      match addErr filename with
      | some err =>
        ⟨watchList, [.watching filename baseURL, .add filename, .failedToAdd err, .osExit 1],
          some 1⟩
      | none =>
        let r := addFiles baseURL addErr rest (Watcher.Add watchList filename)
        ⟨r.watchList, .watching filename baseURL :: .add filename :: r.effects, r.exit⟩

/-- One tick of the re-glob goroutine: glob for filenames, then add the
files to the watch list. -/
def reGlob (baseURL : String) (FilepathGlob : String → Except String (List String))
    (addErr : String → Option String) (globs : List String) (watchList : List String) :
    Outcome :=
  match globFilenames FilepathGlob globs [] with
  | .error err => ⟨watchList, [.failedToGlob err, .osExit 1], some 1⟩
  | .ok filenames => addFiles baseURL addErr filenames watchList

/-! ## The event goroutine -/

/-- The body of the loop "Process events" for one event received from
`watcher.Events`: a `switch` on `event.Op` with the cases `Write`, `Rename`
and `Remove`; any other value of `Op` matches no case. -/
def processEvent (addErr : String → Option String) (watchList : List String)
    (event : Event) : Outcome :=
  if event.Op = Write then
    ⟨watchList, [.send event], none⟩
  else if event.Op = Rename then
    match addErr event.Name with
    | some err => ⟨watchList, [.add event.Name, .failedToAdd err], none⟩
    | none => ⟨Watcher.Add watchList event.Name, [.add event.Name], none⟩
  else if event.Op = Remove then
    ⟨watchList, [.noLongerWatching event.Name], none⟩
  else
    ⟨watchList, [], none⟩

/-- The method `Op.Has` of fsnotify: `o&h != 0`. -/
def Has (o h : Nat) : Bool := Nat.land o h != 0

/-- The watcher side of one change `event` of the file system, on the watch
list it keeps: `none` when the watcher delivers nothing (it reports changes
of watched files only), else the watch list it holds when the event is
delivered on `watcher.Events`. fsnotify takes a removed path, and a renamed
path, out of its watches before it delivers the event ("any watches on it
will be removed"). -/
def Watcher.deliver (watchList : List String) (event : Event) : Option (List String) :=
  if event.Name ∈ watchList then
    if Has event.Op Remove || Has event.Op Rename then
      some (watchList.filter (fun name => name ≠ event.Name))
    else some watchList
  else none

/-- The loop "Process events", `for event := range watcher.Events`, over the
successive changes of the file system, each with the answer `watcher.Add`
would give at that moment: the watcher delivers the event or not, and the
body of the loop handles each delivered event. -/
def processEvents : List (Event × (String → Option String)) → List String → Outcome
  | [], watchList => ⟨watchList, [], none⟩
  | (event, addErr) :: rest, watchList =>
    match Watcher.deliver watchList event with
    | none => processEvents rest watchList
    | some delivered =>
      ⟨(processEvents rest (processEvent addErr delivered event).watchList).watchList,
        (processEvent addErr delivered event).effects ++
          (processEvents rest (processEvent addErr delivered event).watchList).effects,
        none⟩

/-! ## Rendering -/

/-- The node `markdownNode` returns:
`v.Div(v.Attr{"id": "markdown", "class": "markdown-body"}, v.FromReader(outputHTML))`,
kept as its two attributes and the HTML it wraps. -/
structure Node where
  id : String
  cls : String
  html : String
deriving DecidableEq, Repr

/-- Embedding of `markdownNode(filename)`: read the file, convert it, wrap the output.
`ReadFile` is `os.ReadFile` and `Convert` is `markdown.Convert`;
`errors.Wrap(err, msg)` has the text `msg: err`. -/
def markdownNode (ReadFile : String → Except String String)
    (Convert : String → Except String String) (filename : String) : Except String Node :=
  match ReadFile filename with
  | .error err => .error ("failed to read file: " ++ err)
  | .ok rawMarkdown =>
    match Convert rawMarkdown with
    | .error err => .error ("failed to write html to pipe: " ++ err)
    | .ok outputHTML => .ok ⟨"markdown", "markdown-body", outputHTML⟩

/-! ## The viewer session (`/watch`) -/

/-- What `conn.ReadMessage()` or `conn.NextWriter(...)` answers: success, an
error that is a `*websocket.CloseError`, or any other error. -/
inductive ConnResult where
  | ok
  | closeError (err : String)
  | otherError (err : String)
deriving DecidableEq, Repr

/-- The close-detection goroutine over the successive answers of
`conn.ReadMessage()`: it closes `closeChan` and returns at the first answer
that is a close error, and goes on reading after any other answer. The
result tells whether `closeChan` gets closed. -/
def closeDetect : List ConnResult → Bool
  | [] => false
  | .closeError _ :: _ => true
  | _ :: rest => closeDetect rest

/-- The answers of the environment while one event is handled: the file
system and the converter at that moment, `conn.NextWriter`, and
`v.WriteHTML` (`none` for success). -/
structure Env where
  ReadFile : String → Except String String
  Convert : String → Except String String
  NextWriter : ConnResult
  WriteHTML : Option String

/-- The case that one `select` of the session loop takes. -/
inductive Select where
  /-- The `case <-closeChan`, which can be taken once the close-detection
  goroutine has closed `closeChan` -/
  | closeChan
  /-- The `case event := <-eventChan`, with the environment of its handling -/
  | eventChan (event : Event) (env : Env)

/-- What a session does to the outside. -/
inductive Action where
  /-- The call `markdownNode(name)` -/
  | render (name : String)
  /-- A call of `fmt.Println`, with the printed line (without its newline) -/
  | log (text : String)
  /-- The call `conn.NextWriter(websocket.TextMessage)` -/
  | nextWriter
  /-- The call `v.WriteHTML(socket, node)` -/
  | writeHTML (node : Node)
  /-- The call `socket.Close()`, which ends the message -/
  | socketClose
  /-- The deferred `conn.Close()` -/
  | connClose
deriving DecidableEq, Repr

/-- State of a session: the loop is running, or the handler has returned. -/
inductive Status where
  | Active
  | Closed
deriving DecidableEq, Repr

/-- One iteration of the session loop of the session for `filename`: the
actions performed, and `Closed` when the iteration ends in `return`. -/
def sessionIter (filename : String) : Select → List Action × Status
  | .closeChan => ([], .Closed)
  | .eventChan event env =>
    if event.Name ≠ filename then ([], .Active)
    else
      match markdownNode env.ReadFile env.Convert event.Name with
      | .error err => ([.render event.Name, .log err], .Active)
      | .ok node =>
        match env.NextWriter with
        | .closeError _ => ([.render event.Name, .nextWriter], .Closed)
        | .otherError err =>
          ([.render event.Name, .nextWriter, .log ("failed to get socket writer " ++ err)],
            .Active)
        | .ok =>
          match env.WriteHTML with
          | some err =>
            ([.render event.Name, .nextWriter, .writeHTML node,
              .log ("failed to write html to socket " ++ err), .socketClose], .Active)
          | none =>
            ([.render event.Name, .nextWriter, .writeHTML node, .socketClose], .Active)

/-- The session loop over the successive cases its `select` takes. When an
iteration returns, the deferred `conn.Close()` runs and nothing after it. -/
def sessionLoop (filename : String) : List Select → List Action × Status
  | [] => ([], .Active)
  | c :: rest =>
    match sessionIter filename c with
    | (acts, .Closed) => (acts ++ [.connClose], .Closed)
    | (acts, .Active) =>
      ((acts ++ (sessionLoop filename rest).1), (sessionLoop filename rest).2)

/-- The state the HTTP handlers close over: the watcher, as its watch list. -/
structure Server where
  WatchList : List String

/-- The `/watch` handler: `none` when `upgrader.Upgrade` fails (the handler
returns at once), else the session loop for the `filename` of the query. -/
def watchHandler (_server : Server) (upgradeOk : Bool) (filename : String)
    (selects : List Select) : Option (List Action × Status) :=
  if upgradeOk then some (sessionLoop filename selects) else none

/-- The answers of the `/markdown` handler. -/
inductive Response where
  /-- The call `hx.PageRedirect(w, r, url, status)` -/
  | pageRedirect (url : String) (status : Nat)
  /-- The call `http.Error(w, message, status)` -/
  | error (message : String) (status : Nat)
  /-- The call `v.Render(w, status, v.Div(v.Attr{"hx-ws": hxws}, node))` -/
  | render (status : Nat) (hxws : String) (node : Node)
deriving DecidableEq, Repr

/-- The `/markdown` handler for the `filename` of the query
(`http.StatusPermanentRedirect` is 308, `http.StatusInternalServerError` 500,
`http.StatusOK` 200). -/
def markdownHandler (server : Server) (ReadFile : String → Except String String)
    (Convert : String → Except String String) (filename : String) : Response :=
  if !lo.Contains server.WatchList filename then .pageRedirect "/" 308
  else
    match markdownNode ReadFile Convert filename with
    | .error err => .error err 500
    | .ok node => .render 200 ("connect:/watch?filename=" ++ filename) node

/-! ## The event bus (`eventChan`) -/

/-- One send `eventChan <- event` while the sessions for `filenames` are all
blocked in `select`. The channel is unbuffered: Go hands the value to exactly
one receiving goroutine, the one the runtime picks (`pick`, an index into the
sessions); that session runs one iteration on the event and the others stay
blocked. The result lists what each session does. -/
def chanSend (filenames : List String) (pick : Nat) (event : Event) (env : Env) :
    List (List Action × Status) :=
  filenames.enum.map fun (i, filename) =>
    if i = pick then sessionIter filename (.eventChan event env) else ([], .Active)

/-- Whether an action is a write of a rendered node to the transport. -/
def Action.isWrite : Action → Bool
  | .writeHTML _ => true
  | _ => false

/-- Whether an action is a call of the renderer. -/
def Action.isRender : Action → Bool
  | .render _ => true
  | _ => false

/-! ## The sidebar order -/

/-- The inner loop of `insertionSortLessFunc` of the Go `sort` package, on the prefix sorted so
far held in reverse: the new element `x` is swapped towards the front while
`less x y` holds for the element `y` before it. -/
def bubble (less : String → String → Bool) (x : String) : List String → List String
  | [] => [x]
  | y :: revPrefix => if less x y then y :: bubble less x revPrefix else x :: y :: revPrefix

/-- Embedding of `sort.SliceStable(data, less)` as the insertion sort of the Go `sort`
package (what `stable_func` runs on each block of 20 elements; the merges of
longer inputs keep the same, stable, result). -/
def sort.SliceStable (data : List String) (less : String → String → Bool) : List String :=
  (data.foldl (fun revPrefix x => bubble less x revPrefix) []).reverse

/-- Embedding of `strings.ContainsRune(s, r)`. -/
def strings.ContainsRune (s : String) (r : Char) : Bool := s.data.contains r

/-- The `less` of the second sort of the `/sidebar` handler: the first path
has the separator and the second does not. -/
def sepLess (PathSeparator : Char) (a b : String) : Bool :=
  strings.ContainsRune a PathSeparator && !strings.ContainsRune b PathSeparator

/-- Lexicographic comparison of two sequences of characters: the first is a
proper beginning of the second, or is smaller at the first difference. -/
def charsLess : List Char → List Char → Bool
  | _, [] => false
  | [], _ :: _ => true
  | a :: as, b :: bs =>
    if a.val < b.val then true else if b.val < a.val then false else charsLess as bs

/-- The operator `<` of Go on strings. Go compares byte by byte, which on
UTF-8 text is the lexicographic order of the code points. -/
def stringLess (a b : String) : Bool := charsLess a.data b.data

/-- The `less` of the first sort of the `/sidebar` handler, with `ToLower`
standing for `strings.ToLower`. -/
def lowerLess (ToLower : String → String) (a b : String) : Bool :=
  stringLess (ToLower a) (ToLower b)

/-- What `sort.Slice(data, less)` guarantees of its result `sorted` (it is
not stable: equal elements come in any order): the same elements, and no
element is `less` than one before it. -/
def SliceSorted (less : String → String → Bool) (data sorted : List String) : Prop :=
  sorted.Perm data ∧ sorted.Pairwise (fun a b => less b a = false)

/-- The list the `/sidebar` handler renders, from the result `sorted` of its
first sort (`sort.Slice` by lower-cased name): the stable sort that puts the
paths with a separator first. -/
def sidebarList (PathSeparator : Char) (sorted : List String) : List String :=
  sort.SliceStable sorted (sepLess PathSeparator)

/-! ## Sample inputs -/

/-- An environment in which the file holds a heading, the conversion
succeeds and the transport accepts the message. -/
def sampleEnv : Env :=
  ⟨fun _ => .ok "# hi", fun _ => .ok "<h1>hi</h1>", .ok, none⟩

/-- An environment in which the file cannot be read. -/
def unreadableEnv : Env :=
  ⟨fun _ => .error "no such file or directory", fun _ => .ok "", .ok, none⟩

/-- What `strings.ToLower` does on ASCII text: the letters `A` to `Z` are
mapped to `a` to `z`. -/
def asciiToLower (s : String) : String := String.mk (s.data.map Char.toLower)

/-! ## Lemmas on the watch list -/

theorem lo_Contains_iff (collection : List String) (element : String) :
    lo.Contains collection element = true ↔ element ∈ collection := by
  induction collection with
  | nil => simp [lo.Contains]
  | cons item rest ih =>
    by_cases h : item = element
    · simp [lo.Contains, h]
    · have h2 : ¬ element = item := fun e => h e.symm
      simp [lo.Contains, h, h2, ih]

theorem mem_Watcher_Add (watchList : List String) (name p : String) :
    p ∈ Watcher.Add watchList name ↔ p ∈ watchList ∨ p = name := by
  unfold Watcher.Add
  by_cases h : name ∈ watchList
  · simp only [h, if_true]
    constructor
    · exact Or.inl
    · rintro (h1 | h1)
      · exact h1
      · exact h1 ▸ h
  · simp [h]

theorem nodup_Watcher_Add (watchList : List String) (name : String)
    (hnd : watchList.Nodup) : (Watcher.Add watchList name).Nodup := by
  unfold Watcher.Add
  by_cases h : name ∈ watchList
  · simpa [h] using hnd
  · simp only [h, if_false]
    refine List.Nodup.append hnd (List.nodup_singleton name) ?_
    intro a ha hb
    rw [List.mem_singleton] at hb
    exact h (hb ▸ ha)

/-- A pass whose every matched path is already watched does nothing. -/
theorem addFiles_all_watched (baseURL : String) (addErr : String → Option String)
    (filenames watchList : List String) (h : ∀ f ∈ filenames, f ∈ watchList) :
    addFiles baseURL addErr filenames watchList = ⟨watchList, [], none⟩ := by
  induction filenames with
  | nil => rfl
  | cons f rest ih =>
    have hf : lo.Contains watchList f = true :=
      (lo_Contains_iff watchList f).2 (h f (List.mem_cons_self f rest))
    simp only [addFiles, hf, if_true]
    exact ih (fun g hg => h g (List.mem_cons_of_mem f hg))

/-- A pass that does not exit leaves every path of the old watch list and
every matched path in the watch list. -/
theorem addFiles_mem_of_no_exit (baseURL : String) (addErr : String → Option String)
    (filenames : List String) : ∀ watchList : List String,
    (addFiles baseURL addErr filenames watchList).exit = none →
    ∀ p, (p ∈ watchList ∨ p ∈ filenames) →
      p ∈ (addFiles baseURL addErr filenames watchList).watchList := by
  induction filenames with
  | nil =>
    intro watchList _ p hp
    rcases hp with hp | hp
    · simpa [addFiles] using hp
    · cases hp
  | cons f rest ih =>
    intro watchList hexit p hp
    by_cases hf : lo.Contains watchList f = true
    · simp only [addFiles, hf, if_true] at hexit ⊢
      apply ih watchList hexit p
      rcases hp with hp | hp
      · exact Or.inl hp
      · rcases List.mem_cons.1 hp with hp | hp
        · exact Or.inl (hp ▸ (lo_Contains_iff watchList f).1 hf)
        · exact Or.inr hp
    · cases hadd : addErr f with
      | some err => simp [addFiles, hf, hadd] at hexit
      | none =>
        simp only [addFiles, hf, hadd] at hexit ⊢
        apply ih (Watcher.Add watchList f) hexit p
        rcases hp with hp | hp
        · exact Or.inl ((mem_Watcher_Add watchList f p).2 (Or.inl hp))
        · rcases List.mem_cons.1 hp with hp | hp
          · exact Or.inl ((mem_Watcher_Add watchList f p).2 (Or.inr hp))
          · exact Or.inr hp

/-- The shape of a pass in which every subscription succeeds. -/
theorem addFiles_success (baseURL : String) (addErr : String → Option String)
    (filenames : List String) : ∀ watchList : List String,
    (∀ f ∈ filenames, addErr f = none) →
    (addFiles baseURL addErr filenames watchList).exit = none ∧
    (watchList.Nodup → (addFiles baseURL addErr filenames watchList).watchList.Nodup) ∧
    (∀ p, p ∈ (addFiles baseURL addErr filenames watchList).watchList ↔
      p ∈ watchList ∨ p ∈ filenames) ∧
    (∀ p, (addFiles baseURL addErr filenames watchList).effects.count (.add p) =
      if p ∈ filenames ∧ p ∉ watchList then 1 else 0) ∧
    (∀ p, (addFiles baseURL addErr filenames watchList).effects.count (.watching p baseURL) =
      if p ∈ filenames ∧ p ∉ watchList then 1 else 0) ∧
    (∀ e ∈ (addFiles baseURL addErr filenames watchList).effects,
      ∃ p, e = .watching p baseURL ∨ e = .add p) := by
  induction filenames with
  | nil =>
    intro watchList _
    simp [addFiles]
  | cons f rest ih =>
    intro watchList hok
    have hrest : ∀ g ∈ rest, addErr g = none := fun g hg => hok g (List.mem_cons_of_mem f hg)
    by_cases hf : lo.Contains watchList f = true
    · have hmem : f ∈ watchList := (lo_Contains_iff watchList f).1 hf
      obtain ⟨h1, h2, h3, h4, h5, h6⟩ := ih watchList hrest
      simp only [addFiles, hf, if_true]
      refine ⟨h1, h2, ?_, ?_, ?_, h6⟩
      · intro p
        rw [h3 p, List.mem_cons]
        constructor
        · rintro (h | h)
          · exact Or.inl h
          · exact Or.inr (Or.inr h)
        · rintro (h | h | h)
          · exact Or.inl h
          · exact Or.inl (h ▸ hmem)
          · exact Or.inr h
      · intro p
        rw [h4 p]
        by_cases hp : p = f
        · subst hp; simp [hmem]
        · simp [hp]
      · intro p
        rw [h5 p]
        by_cases hp : p = f
        · subst hp; simp [hmem]
        · simp [hp]
    · have hnmem : f ∉ watchList := fun h => hf ((lo_Contains_iff watchList f).2 h)
      have hadd : addErr f = none := hok f (List.mem_cons_self f rest)
      obtain ⟨h1, h2, h3, h4, h5, h6⟩ := ih (Watcher.Add watchList f) hrest
      simp only [addFiles, hf, hadd, Bool.false_eq_true, if_false]
      refine ⟨h1, fun hnd => h2 (nodup_Watcher_Add watchList f hnd), ?_, ?_, ?_, ?_⟩
      · intro p
        rw [h3 p, mem_Watcher_Add, List.mem_cons]
        tauto
      · intro p
        rw [List.count_cons, List.count_cons, h4 p]
        by_cases hp : p = f
        · subst hp; simp [hnmem, mem_Watcher_Add]
        · have hp2 : ¬ f = p := fun e => hp e.symm
          simp [hp, hp2, mem_Watcher_Add]
      · intro p
        rw [List.count_cons, List.count_cons, h5 p]
        by_cases hp : p = f
        · subst hp; simp [hnmem, mem_Watcher_Add]
        · have hp2 : ¬ f = p := fun e => hp e.symm
          simp [hp, hp2, mem_Watcher_Add]
      · intro e he
        rcases List.mem_cons.1 he with he | he
        · exact ⟨f, Or.inl he⟩
        · rcases List.mem_cons.1 he with he | he
          · exact ⟨f, Or.inr he⟩
          · exact h6 e he

/-! ## The watch list under reconciliation and notifications -/

/-- C3: from a duplicate-free watch list `W`, a pass over the matches `M` (in
any order, with repeats) in which every subscription succeeds does not exit
and leaves a duplicate-free watch list with exactly the paths of `W` and of
`M`; each path of `M` not in `W` is subscribed once and announced once, no
path of `W` is subscribed or announced, and the pass has no other effect. -/
theorem reconcile_pass_union (baseURL : String) (addErr : String → Option String)
    (W M : List String) (hW : W.Nodup) (hok : ∀ f ∈ M, addErr f = none) :
    (addFiles baseURL addErr M W).exit = none ∧
    (addFiles baseURL addErr M W).watchList.Nodup ∧
    (∀ p, p ∈ (addFiles baseURL addErr M W).watchList ↔ p ∈ W ∨ p ∈ M) ∧
    (∀ p, p ∈ M → p ∉ W →
      (addFiles baseURL addErr M W).effects.count (.add p) = 1 ∧
      (addFiles baseURL addErr M W).effects.count (.watching p baseURL) = 1) ∧
    (∀ p, p ∈ W →
      (addFiles baseURL addErr M W).effects.count (.add p) = 0 ∧
      (addFiles baseURL addErr M W).effects.count (.watching p baseURL) = 0) ∧
    (∀ e ∈ (addFiles baseURL addErr M W).effects,
      ∃ p, e = .watching p baseURL ∨ e = .add p) := by
  obtain ⟨h1, h2, h3, h4, h5, h6⟩ := addFiles_success baseURL addErr M W hok
  refine ⟨h1, h2 hW, h3, ?_, ?_, h6⟩
  · intro p hM hnW
    rw [h4 p, h5 p]
    simp [hM, hnW]
  · intro p hpW
    rw [h4 p, h5 p]
    simp [hpW]

/-- Witness of C3: two new paths, one repeated, and one watched path. -/
theorem reconcile_pass_union_witness :
    (addFiles "http://localhost:8888" (fun _ => none)
      ["docs/b.md", "docs/a.md", "docs/b.md", "c.md"] ["docs/a.md"]).watchList
      = ["docs/a.md", "docs/b.md", "c.md"] ∧
    (addFiles "http://localhost:8888" (fun _ => none)
      ["docs/b.md", "docs/a.md", "docs/b.md", "c.md"] ["docs/a.md"]).effects.count
        (.add "docs/b.md") = 1 :=
  ⟨by decide,
   ((reconcile_pass_union "http://localhost:8888" (fun _ => none)
      ["docs/a.md"] ["docs/b.md", "docs/a.md", "docs/b.md", "c.md"]
      (by decide) (fun _ _ => rfl)).2.2.2.1 "docs/b.md" (by decide) (by decide)).1⟩

/-- C4: after a first pass over `M` that did not exit, a second pass over the
same `M` (whatever the watcher would answer) makes no subscription call,
prints nothing, does not exit, and leaves the watch list of the first pass. -/
theorem reconcile_twice_idempotent (baseURL : String)
    (addErr addErr2 : String → Option String) (W M : List String)
    (hfirst : (addFiles baseURL addErr M W).exit = none) :
    addFiles baseURL addErr2 M (addFiles baseURL addErr M W).watchList =
      ⟨(addFiles baseURL addErr M W).watchList, [], none⟩ :=
  addFiles_all_watched baseURL addErr2 M _
    (fun f hf => addFiles_mem_of_no_exit baseURL addErr M W hfirst f (Or.inr hf))

/-- Witness of C4: the second pass after a first pass that added two paths. -/
theorem reconcile_twice_idempotent_witness :
    addFiles "http://localhost:8888" (fun _ => some "too many open files")
      ["docs/b.md", "docs/a.md", "docs/b.md"]
      (addFiles "http://localhost:8888" (fun _ => none)
        ["docs/b.md", "docs/a.md", "docs/b.md"] ["c.md"]).watchList =
      ⟨["c.md", "docs/b.md", "docs/a.md"], [], none⟩ :=
  reconcile_twice_idempotent "http://localhost:8888" (fun _ => none)
    (fun _ => some "too many open files") ["c.md"] ["docs/b.md", "docs/a.md", "docs/b.md"]
    (by decide)

/-- What the watcher delivers is about a watched path, and the list it then
holds has no path that was not watched. -/
theorem Watcher_deliver_some (watchList delivered : List String) (event : Event)
    (h : Watcher.deliver watchList event = some delivered) :
    event.Name ∈ watchList ∧ ∀ p, p ∉ watchList → p ∉ delivered := by
  unfold Watcher.deliver at h
  by_cases hmem : event.Name ∈ watchList
  · refine ⟨hmem, ?_⟩
    intro p hp hin
    rw [if_pos hmem] at h
    by_cases hop : (Has event.Op Remove || Has event.Op Rename) = true
    · rw [if_pos hop] at h
      injection h with h
      rw [← h] at hin
      exact hp (List.mem_filter.1 hin).1
    · rw [if_neg hop] at h
      injection h with h
      rw [← h] at hin
      exact hp hin
  · rw [if_neg hmem] at h
    cases h

/-- The handler of an event about another path does not add `p` to the
watch list and sends no event about `p`. -/
theorem processEvent_unwatched (addErr : String → Option String) (watchList : List String)
    (event : Event) (p : String) (hp : p ∉ watchList) (hne : event.Name ≠ p) :
    p ∉ (processEvent addErr watchList event).watchList ∧
    ∀ ev, Effect.send ev ∈ (processEvent addErr watchList event).effects → ev.Name ≠ p := by
  have hne2 : ¬ p = event.Name := fun h => hne h.symm
  unfold processEvent
  by_cases h1 : event.Op = Write
  · rw [if_pos h1]
    refine ⟨hp, ?_⟩
    intro ev hev
    have : ev = event := by simpa using hev
    rw [this]; exact hne
  · rw [if_neg h1]
    by_cases h2 : event.Op = Rename
    · rw [if_pos h2]
      cases hadd : addErr event.Name with
      | some err =>
        refine ⟨hp, ?_⟩
        intro ev hev
        simp at hev
      | none =>
        refine ⟨?_, ?_⟩
        · intro h
          rcases (mem_Watcher_Add watchList event.Name p).1 h with h | h
          · exact hp h
          · exact hne2 h
        · intro ev hev
          simp at hev
    · rw [if_neg h2]
      by_cases h3 : event.Op = Remove
      · rw [if_pos h3]
        refine ⟨hp, ?_⟩
        intro ev hev
        simp at hev
      · rw [if_neg h3]
        refine ⟨hp, ?_⟩
        intro ev hev
        simp at hev

/-- A path that is not watched stays out of the watch list through any
delivered event, and no event about it is sent on `eventChan`. -/
theorem processEvents_unwatched (p : String) :
    ∀ (changes : List (Event × (String → Option String))) (watchList : List String),
    p ∉ watchList →
    p ∉ (processEvents changes watchList).watchList ∧
    (∀ ev, Effect.send ev ∈ (processEvents changes watchList).effects → ev.Name ≠ p) ∧
    (processEvents changes watchList).exit = none := by
  intro changes
  induction changes with
  | nil =>
    intro watchList hp
    exact ⟨hp, by simp [processEvents], rfl⟩
  | cons c rest ih =>
    intro watchList hp
    obtain ⟨event, addErr⟩ := c
    cases hdel : Watcher.deliver watchList event with
    | none =>
      simp only [processEvents, hdel]
      exact ih watchList hp
    | some delivered =>
      obtain ⟨hmem, hkeep⟩ := Watcher_deliver_some watchList delivered event hdel
      have hne : event.Name ≠ p := fun h => hp (h ▸ hmem)
      obtain ⟨g1, g2⟩ := processEvent_unwatched addErr delivered event p (hkeep p hp) hne
      obtain ⟨i1, i2, _⟩ := ih (processEvent addErr delivered event).watchList g1
      simp only [processEvents, hdel]
      refine ⟨i1, ?_, trivial⟩
      intro ev hev
      rcases List.mem_append.1 hev with h | h
      · exact g2 ev h
      · exact i2 ev h

/-- A write of a watched path is delivered and sent on `eventChan` as it
is, and the watch list is kept. -/
theorem processEvents_write (addErr : String → Option String) (watchList : List String)
    (p : String) (hp : p ∈ watchList) :
    processEvents [(⟨p, Write⟩, addErr)] watchList =
      ⟨watchList, [.send ⟨p, Write⟩], none⟩ := by
  have hHas : (Has Write Remove || Has Write Rename) = false := by decide
  have hdel : Watcher.deliver watchList ⟨p, Write⟩ = some watchList := by
    simp [Watcher.deliver, hp, hHas]
  simp only [processEvents, hdel]
  simp [processEvent]

/-- C5: a Removed notification for the watched path `p` leaves the watch list
without `p` (the other paths are kept), and its handling prints one line and
sends nothing on `eventChan`. From then on, whatever changes of the file
system follow, `p` stays out of the watch list and no event about `p` is sent
on `eventChan`; once a later pass over matches that hold `p` has run without
exit, `p` is watched again and a write of `p` is sent on `eventChan`. -/
theorem remove_drops_until_rediscovered (addErr : String → Option String)
    (W : List String) (p : String) (hp : p ∈ W) :
    processEvents [(⟨p, Remove⟩, addErr)] W =
      ⟨W.filter (fun name => name ≠ p), [.noLongerWatching p], none⟩ ∧
    p ∉ (processEvents [(⟨p, Remove⟩, addErr)] W).watchList ∧
    (∀ changes,
      p ∉ (processEvents changes
        (processEvents [(⟨p, Remove⟩, addErr)] W).watchList).watchList ∧
      (∀ ev, Effect.send ev ∈ (processEvents changes
        (processEvents [(⟨p, Remove⟩, addErr)] W).watchList).effects → ev.Name ≠ p)) ∧
    (∀ changes baseURL addErr2 addErr3 M, p ∈ M →
      (addFiles baseURL addErr2 M (processEvents changes
        (processEvents [(⟨p, Remove⟩, addErr)] W).watchList).watchList).exit = none →
      p ∈ (addFiles baseURL addErr2 M (processEvents changes
        (processEvents [(⟨p, Remove⟩, addErr)] W).watchList).watchList).watchList ∧
      (processEvents [(⟨p, Write⟩, addErr3)]
        (addFiles baseURL addErr2 M (processEvents changes
          (processEvents [(⟨p, Remove⟩, addErr)] W).watchList).watchList).watchList).effects
        = [.send ⟨p, Write⟩]) := by
  have h : processEvents [(⟨p, Remove⟩, addErr)] W =
      ⟨W.filter (fun name => name ≠ p), [.noLongerWatching p], none⟩ := by
    have hdel : Watcher.deliver W ⟨p, Remove⟩ = some (W.filter (fun name => name ≠ p)) := by
      have hHas : Has Remove Remove = true := by decide
      simp [Watcher.deliver, hp, hHas]
    have hproc : processEvent addErr (W.filter (fun name => name ≠ p)) ⟨p, Remove⟩ =
        ⟨W.filter (fun name => name ≠ p), [.noLongerWatching p], none⟩ := by
      simp [processEvent, Remove, Write, Rename]
    simp only [processEvents, hdel, hproc, List.append_nil]
  have hout : p ∉ (processEvents [(⟨p, Remove⟩, addErr)] W).watchList := by
    rw [h]
    intro hmem
    have := (List.mem_filter.1 hmem).2
    simp at this
  refine ⟨h, hout, ?_, ?_⟩
  · intro changes
    obtain ⟨h1, h2, _⟩ := processEvents_unwatched p changes _ hout
    exact ⟨h1, h2⟩
  · intro changes baseURL addErr2 addErr3 M hM hexit
    have hin := addFiles_mem_of_no_exit baseURL addErr2 M _ hexit p (Or.inr hM)
    refine ⟨hin, ?_⟩
    rw [processEvents_write addErr3 _ p hin]

/-- Witness of C5: `docs/a.md` is removed while `docs/a.md` and `b.md` are
watched, then a write of each is reported. -/
theorem remove_drops_until_rediscovered_witness :
    processEvents [(⟨"docs/a.md", Remove⟩, fun _ => none)] ["docs/a.md", "b.md"] =
      ⟨["b.md"], [.noLongerWatching "docs/a.md"], none⟩ ∧
    (∀ ev, Effect.send ev ∈ (processEvents
        [(⟨"docs/a.md", Write⟩, fun _ => none), (⟨"b.md", Write⟩, fun _ => none)]
        (processEvents [(⟨"docs/a.md", Remove⟩, fun _ => none)]
          ["docs/a.md", "b.md"]).watchList).effects → ev.Name ≠ "docs/a.md") :=
  ⟨(remove_drops_until_rediscovered (fun _ => none) ["docs/a.md", "b.md"] "docs/a.md"
      (by decide)).1,
   ((remove_drops_until_rediscovered (fun _ => none) ["docs/a.md", "b.md"] "docs/a.md"
      (by decide)).2.2.1
      [(⟨"docs/a.md", Write⟩, fun _ => none), (⟨"b.md", Write⟩, fun _ => none)]).2⟩

/-- C7: when the re-subscription of a Rename event for `p` succeeds, `p` is
in the watch list afterwards (which is unchanged when `p` was watched) and
nothing was sent on `eventChan`; a Write event for `p` handled next is sent
on `eventChan` as it is and the watch list is not changed. -/
theorem rename_then_write (addErr addErr2 : String → Option String) (W : List String)
    (p : String) (hok : addErr p = none) :
    p ∈ (processEvent addErr W ⟨p, Rename⟩).watchList ∧
    (p ∈ W → (processEvent addErr W ⟨p, Rename⟩).watchList = W) ∧
    (∀ e, Effect.send e ∉ (processEvent addErr W ⟨p, Rename⟩).effects) ∧
    (processEvent addErr W ⟨p, Rename⟩).exit = none ∧
    processEvent addErr2 (processEvent addErr W ⟨p, Rename⟩).watchList ⟨p, Write⟩ =
      ⟨(processEvent addErr W ⟨p, Rename⟩).watchList, [.send ⟨p, Write⟩], none⟩ := by
  have h : processEvent addErr W ⟨p, Rename⟩ = ⟨Watcher.Add W p, [.add p], none⟩ := by
    simp [processEvent, Write, Rename, hok]
  rw [h]
  refine ⟨(mem_Watcher_Add W p p).2 (Or.inr rfl), ?_, ?_, rfl, ?_⟩
  · intro hp
    simp [Watcher.Add, hp]
  · intro e
    simp
  · simp [processEvent]

/-- Witness of C7: a rename of the watched `docs/a.md`, then a write. -/
theorem rename_then_write_witness :
    processEvent (fun _ => none)
      (processEvent (fun _ => none) ["docs/a.md"] ⟨"docs/a.md", Rename⟩).watchList
      ⟨"docs/a.md", Write⟩ =
      ⟨(processEvent (fun _ => none) ["docs/a.md"] ⟨"docs/a.md", Rename⟩).watchList,
        [.send ⟨"docs/a.md", Write⟩], none⟩ :=
  (rename_then_write (fun _ => none) (fun _ => none) ["docs/a.md"] "docs/a.md" rfl).2.2.2.2

/-- A pass over `first ++ second` whose part over `first` does not exit is
that part followed by the pass over `second` from the watch list it left. -/
theorem addFiles_append (baseURL : String) (addErr : String → Option String)
    (first second : List String) : ∀ watchList : List String,
    (addFiles baseURL addErr first watchList).exit = none →
    addFiles baseURL addErr (first ++ second) watchList =
      ⟨(addFiles baseURL addErr second
          (addFiles baseURL addErr first watchList).watchList).watchList,
        (addFiles baseURL addErr first watchList).effects ++
          (addFiles baseURL addErr second
            (addFiles baseURL addErr first watchList).watchList).effects,
        (addFiles baseURL addErr second
          (addFiles baseURL addErr first watchList).watchList).exit⟩ := by
  induction first with
  | nil =>
    intro watchList _
    simp [addFiles]
  | cons f rest ih =>
    intro watchList hexit
    by_cases hf : lo.Contains watchList f = true
    · simp only [addFiles, hf, if_true, List.cons_append] at hexit ⊢
      exact ih watchList hexit
    · cases hadd : addErr f with
      | some err => simp [addFiles, hf, hadd] at hexit
      | none =>
        simp only [addFiles, hf, hadd, Bool.false_eq_true, if_false,
          List.cons_append] at hexit ⊢
        have ih2 : addFiles baseURL addErr (rest.append second) (Watcher.Add watchList f) = _ :=
          ih (Watcher.Add watchList f) hexit
        rw [ih2]

/-- Counterexample to C9: in a pass over `b.md`, `a.md` and `c.md` where the
subscription to `a.md` fails, the process exits with status 1 after `b.md`
was added, and `c.md` is neither announced nor subscribed. -/
theorem subscription_failure_exits :
    addFiles "http://localhost:8888"
      (fun f => if f = "a.md" then some "no space left on device" else none)
      ["b.md", "a.md", "c.md"] [] =
      ⟨["b.md"], [.watching "b.md" "http://localhost:8888", .add "b.md",
            .watching "a.md" "http://localhost:8888", .add "a.md",
            .failedToAdd "no space left on device", .osExit 1], some 1⟩ := by
  decide

/-- C9, amended: when `watcher.Add` fails for `f`, the handler of a Rename
event for `f` prints the failure and goes on: it does not exit, and it
changes the watching of no other path. A pass that reaches `f` while `f` is
not watched, wherever `f` stands among the matches, is the pass over the
matches before `f`, then the announcement, the failed call and the printed
failure, then `os.Exit(1)`: the matches after `f` are not processed. -/
theorem subscription_failure_scope (baseURL : String) (addErr : String → Option String)
    (f err : String) (hfail : addErr f = some err) :
    (∀ W, (processEvent addErr W ⟨f, Rename⟩).effects = [.add f, .failedToAdd err] ∧
      (processEvent addErr W ⟨f, Rename⟩).exit = none ∧
      (∀ q, q ≠ f → (q ∈ (processEvent addErr W ⟨f, Rename⟩).watchList ↔ q ∈ W))) ∧
    (∀ W before rest,
      (addFiles baseURL addErr before W).exit = none →
      f ∉ (addFiles baseURL addErr before W).watchList →
      addFiles baseURL addErr (before ++ f :: rest) W =
        ⟨(addFiles baseURL addErr before W).watchList,
          (addFiles baseURL addErr before W).effects ++
            [.watching f baseURL, .add f, .failedToAdd err, .osExit 1],
          some 1⟩) := by
  constructor
  · intro W
    have h : processEvent addErr W ⟨f, Rename⟩ = ⟨W, [.add f, .failedToAdd err], none⟩ := by
      simp [processEvent, Write, Rename, hfail]
    rw [h]
    exact ⟨rfl, rfl, fun _ _ => Iff.rfl⟩
  · intro W before rest hexit hnew
    have hf : lo.Contains (addFiles baseURL addErr before W).watchList f = false := by
      cases hc : lo.Contains (addFiles baseURL addErr before W).watchList f with
      | false => rfl
      | true => exact absurd ((lo_Contains_iff _ f).1 hc) hnew
    have hstep : addFiles baseURL addErr (f :: rest)
        (addFiles baseURL addErr before W).watchList =
        ⟨(addFiles baseURL addErr before W).watchList,
          [.watching f baseURL, .add f, .failedToAdd err, .osExit 1], some 1⟩ := by
      simp [addFiles, hf, hfail]
    rw [addFiles_append baseURL addErr before (f :: rest) W hexit, hstep]

/-- Witness of C9, amended: the failing re-subscription of the renamed
`a.md` is only printed, and the pass over `b.md`, `a.md` and `c.md` exits at
`a.md`. -/
theorem subscription_failure_scope_witness :
    (processEvent (fun f => if f = "a.md" then some "no space left on device" else none)
      ["b.md"] ⟨"a.md", Rename⟩).exit = none ∧
    (addFiles "http://localhost:8888"
      (fun f => if f = "a.md" then some "no space left on device" else none)
      (["b.md"] ++ "a.md" :: ["c.md"]) []).exit = some 1 :=
  ⟨((subscription_failure_scope "http://localhost:8888"
      (fun f => if f = "a.md" then some "no space left on device" else none)
      "a.md" "no space left on device" (by decide)).1 ["b.md"]).2.1,
   by
    rw [(subscription_failure_scope "http://localhost:8888"
      (fun f => if f = "a.md" then some "no space left on device" else none)
      "a.md" "no space left on device" (by decide)).2 [] ["b.md"] ["c.md"]
      (by decide) (by decide)]⟩

/-! ## Viewer sessions -/

theorem sessionIter_other (X : String) (e : Event) (env : Env) (h : e.Name ≠ X) :
    sessionIter X (.eventChan e env) = ([], .Active) := by
  simp [sessionIter, h]

theorem sessionLoop_closed_iff (filename : String) (cs : List Select) :
    (sessionLoop filename cs).2 = .Closed ↔ ∃ c ∈ cs, (sessionIter filename c).2 = .Closed := by
  induction cs with
  | nil => simp [sessionLoop]
  | cons c rest ih =>
    rcases hc : sessionIter filename c with ⟨acts, st⟩
    cases st with
    | Closed => simp [sessionLoop, hc]
    | Active => simp [sessionLoop, hc, ih]

theorem sessionLoop_terminal (filename : String) (cs rest : List Select)
    (h : (sessionLoop filename cs).2 = .Closed) :
    sessionLoop filename (cs ++ rest) = sessionLoop filename cs := by
  induction cs with
  | nil => simp [sessionLoop] at h
  | cons c tl ih =>
    rcases hc : sessionIter filename c with ⟨acts, st⟩
    cases st with
    | Closed => simp [sessionLoop, hc]
    | Active =>
      simp only [sessionLoop, hc] at h
      have ih2 : sessionLoop filename (tl.append rest) = sessionLoop filename tl := ih h
      simp only [List.cons_append, sessionLoop, hc]
      rw [ih2]

theorem closeDetect_iff (reads : List ConnResult) :
    closeDetect reads = true ↔ ∃ err, ConnResult.closeError err ∈ reads := by
  induction reads with
  | nil => simp [closeDetect]
  | cons r rest ih =>
    cases r with
    | ok => simp [closeDetect, ih]
    | closeError err => simp [closeDetect]
    | otherError err => simp [closeDetect, ih]

/-- C1: in the session for `X`, an event received from `eventChan` whose name
differs from `X` causes no action at all (no render, no write) and the
session stays active; an event for `X` whose render gives `node` and whose
`NextWriter` succeeds makes the session open one message, write `node` to it
once and close it (with a printed line in between, at most, when that write
reports an error), and the session stays active. -/
theorem session_push_only_for_target (X : String) (e : Event) (env : Env) :
    (e.Name ≠ X → sessionIter X (.eventChan e env) = ([], .Active)) ∧
    (∀ node, e.Name = X → markdownNode env.ReadFile env.Convert X = .ok node →
      env.NextWriter = .ok →
      (sessionIter X (.eventChan e env)).2 = .Active ∧
      (∃ logs, (∀ a ∈ logs, ∃ text, a = Action.log text) ∧
        (sessionIter X (.eventChan e env)).1 =
          [.render X, .nextWriter, .writeHTML node] ++ logs ++ [.socketClose]) ∧
      (sessionIter X (.eventChan e env)).1.filter Action.isWrite = [.writeHTML node]) := by
  refine ⟨sessionIter_other X e env, ?_⟩
  intro node hX hnode hw
  cases hwr : env.WriteHTML with
  | none =>
    have h : sessionIter X (.eventChan e env) =
        ([.render X, .nextWriter, .writeHTML node, .socketClose], .Active) := by
      simp [sessionIter, hX, hnode, hw, hwr]
    rw [h]
    exact ⟨rfl, ⟨[], by simp, rfl⟩, rfl⟩
  | some err =>
    have h : sessionIter X (.eventChan e env) =
        ([.render X, .nextWriter, .writeHTML node,
          .log ("failed to write html to socket " ++ err), .socketClose], .Active) := by
      simp [sessionIter, hX, hnode, hw, hwr]
    rw [h]
    exact ⟨rfl, ⟨[.log ("failed to write html to socket " ++ err)], by simp, rfl⟩, rfl⟩

/-- Witness of C1: an event for another file, and an event for the target. -/
theorem session_push_only_for_target_witness :
    sessionIter "docs/a.md" (.eventChan ⟨"docs/b.md", Write⟩ sampleEnv) = ([], .Active) ∧
    (sessionIter "docs/a.md" (.eventChan ⟨"docs/a.md", Write⟩ sampleEnv)).1.filter
      Action.isWrite = [.writeHTML ⟨"markdown", "markdown-body", "<h1>hi</h1>"⟩] :=
  ⟨(session_push_only_for_target "docs/a.md" ⟨"docs/b.md", Write⟩ sampleEnv).1 (by decide),
   ((session_push_only_for_target "docs/a.md" ⟨"docs/a.md", Write⟩ sampleEnv).2
      ⟨"markdown", "markdown-body", "<h1>hi</h1>"⟩ rfl rfl rfl).2.2⟩

/-- C8: `closeChan` is closed exactly when a read of the transport answers a
close error; an iteration of the session loop returns exactly when `select`
takes the `closeChan` case or, for an event of the target whose render
succeeded, `NextWriter` answers a close error; the loop has returned exactly
when one of its iterations did. A failed render, a `NextWriter` error that is
not a close error, and a failed `WriteHTML` are printed and leave the session
active (without a write in the first two cases). After the return, whatever
`select` cases would follow add no action. -/
theorem session_close_exactly (filename : String) :
    (∀ reads, closeDetect reads = true ↔ ∃ err, ConnResult.closeError err ∈ reads) ∧
    (∀ c, (sessionIter filename c).2 = .Closed ↔
      (c = .closeChan ∨ ∃ event env node err, c = .eventChan event env ∧
        event.Name = filename ∧ markdownNode env.ReadFile env.Convert filename = .ok node ∧
        env.NextWriter = .closeError err)) ∧
    (∀ cs, (sessionLoop filename cs).2 = .Closed ↔
      ∃ c ∈ cs, (sessionIter filename c).2 = .Closed) ∧
    (∀ event env err, event.Name = filename →
      markdownNode env.ReadFile env.Convert filename = .error err →
      sessionIter filename (.eventChan event env) =
        ([.render filename, .log err], .Active)) ∧
    (∀ event env node err, event.Name = filename →
      markdownNode env.ReadFile env.Convert filename = .ok node →
      env.NextWriter = .otherError err →
      sessionIter filename (.eventChan event env) =
        ([.render filename, .nextWriter, .log ("failed to get socket writer " ++ err)],
          .Active)) ∧
    (∀ event env node err, event.Name = filename →
      markdownNode env.ReadFile env.Convert filename = .ok node →
      env.NextWriter = .ok → env.WriteHTML = some err →
      sessionIter filename (.eventChan event env) =
        ([.render filename, .nextWriter, .writeHTML node,
          .log ("failed to write html to socket " ++ err), .socketClose], .Active)) ∧
    (∀ cs rest, (sessionLoop filename cs).2 = .Closed →
      sessionLoop filename (cs ++ rest) = sessionLoop filename cs) := by
  refine ⟨closeDetect_iff, ?_, sessionLoop_closed_iff filename, ?_, ?_, ?_,
    sessionLoop_terminal filename⟩
  · intro c
    cases c with
    | closeChan => simp [sessionIter]
    | eventChan event env =>
      by_cases hX : event.Name = filename
      · subst hX
        cases hnode : markdownNode env.ReadFile env.Convert event.Name with
        | error err =>
          simp [sessionIter, hnode]
        | ok node =>
          cases hw : env.NextWriter with
          | closeError err =>
            simp only [sessionIter, hnode, hw, ne_eq, not_true_eq_false, if_false, true_iff]
            exact Or.inr ⟨event, env, node, err, rfl, rfl, hnode, hw⟩
          | otherError err =>
            simp [sessionIter, hnode, hw]
          | ok =>
            cases hwr : env.WriteHTML with
            | none => simp [sessionIter, hnode, hw, hwr]
            | some err => simp [sessionIter, hnode, hw, hwr]
      · simp only [sessionIter, ne_eq, hX, not_false_eq_true, if_true]
        constructor
        · intro h; cases h
        · rintro (h | ⟨ev, en, node, err, h1, h2, _, _⟩)
          · cases h
          · cases h1
            exact absurd h2 hX
  · intro event env err hX hnode
    subst hX
    simp [sessionIter, hnode]
  · intro event env node err hX hnode hw
    subst hX
    simp [sessionIter, hnode, hw]
  · intro event env node err hX hnode hw hwr
    subst hX
    simp [sessionIter, hnode, hw, hwr]

/-- Witness of C8: a failed render leaves the session active, and after the
`closeChan` case a further event for the target adds nothing. -/
theorem session_close_exactly_witness :
    sessionIter "docs/a.md" (.eventChan ⟨"docs/a.md", Write⟩ unreadableEnv) =
      ([.render "docs/a.md", .log "failed to read file: no such file or directory"],
        .Active) ∧
    sessionLoop "docs/a.md"
      ([.closeChan] ++ [.eventChan ⟨"docs/a.md", Write⟩ sampleEnv]) =
      sessionLoop "docs/a.md" [.closeChan] :=
  ⟨(session_close_exactly "docs/a.md").2.2.2.1 ⟨"docs/a.md", Write⟩ unreadableEnv
      "failed to read file: no such file or directory" rfl rfl,
   (session_close_exactly "docs/a.md").2.2.2.2.2.2 [.closeChan]
      [.eventChan ⟨"docs/a.md", Write⟩ sampleEnv] rfl⟩

/-- Counterexample to C6: with an empty watch list, the `/watch` handler for
`ghost.md` enters the session loop (the session is active, waiting in
`select`), and closes only on the `closeChan` case. -/
theorem watch_handler_accepts_unwatched :
    lo.Contains (Server.mk []).WatchList "ghost.md" = false ∧
    watchHandler ⟨[]⟩ true "ghost.md" [] = some ([], .Active) ∧
    watchHandler ⟨[]⟩ true "ghost.md" [.closeChan] = some ([.connClose], .Closed) := by
  refine ⟨rfl, rfl, rfl⟩

/-- C6, amended: for a filename that is not in the watch list, the
`/markdown` handler answers with a page redirect to `/` (status 308), not
with a render or an error; the `/watch` handler does not look at the watch
list: it returns at once when the upgrade fails and otherwise runs the
session loop for the filename. -/
theorem unwatched_request (server : Server) (ReadFile : String → Except String String)
    (Convert : String → Except String String) (filename : String)
    (hnot : filename ∉ server.WatchList) :
    markdownHandler server ReadFile Convert filename = .pageRedirect "/" 308 ∧
    (∀ selects, watchHandler server false filename selects = none) ∧
    (∀ selects, watchHandler server true filename selects =
      some (sessionLoop filename selects)) ∧
    (∀ server2 upgradeOk selects, watchHandler server2 upgradeOk filename selects =
      watchHandler server upgradeOk filename selects) := by
  have hc : lo.Contains server.WatchList filename = false := by
    cases h : lo.Contains server.WatchList filename with
    | false => rfl
    | true => exact absurd ((lo_Contains_iff _ _).1 h) hnot
  refine ⟨by simp [markdownHandler, hc], fun _ => rfl, fun _ => rfl, fun _ _ _ => rfl⟩

/-- Witness of C6, amended: a request for `ghost.md` while only `docs/a.md`
is watched. -/
theorem unwatched_request_witness :
    markdownHandler ⟨["docs/a.md"]⟩ sampleEnv.ReadFile sampleEnv.Convert "ghost.md" =
      .pageRedirect "/" 308 :=
  (unwatched_request ⟨["docs/a.md"]⟩ sampleEnv.ReadFile sampleEnv.Convert "ghost.md"
    (by decide)).1

/-- C2 on the code: one Write event for `docs/a.md` sent on `eventChan` while
two sessions for `docs/a.md` wait on it. Whichever receiver the runtime
picks, at most one of the two sessions writes; when the first is picked, it
pushes and the second does nothing. -/
theorem bus_single_receiver :
    (∀ pick, ((chanSend ["docs/a.md", "docs/a.md"] pick ⟨"docs/a.md", Write⟩ sampleEnv).filter
      (fun r => r.1.any Action.isWrite)).length ≤ 1) ∧
    chanSend ["docs/a.md", "docs/a.md"] 0 ⟨"docs/a.md", Write⟩ sampleEnv =
      [([.render "docs/a.md", .nextWriter,
          .writeHTML ⟨"markdown", "markdown-body", "<h1>hi</h1>"⟩, .socketClose], .Active),
       ([], .Active)] := by
  constructor
  · intro pick
    match pick with
    | 0 => decide
    | 1 => decide
    | n + 2 => simp [chanSend, List.enum, List.enumFrom]
  · decide

/-! ## The sidebar order -/

/-- The comparison of the embedding is the lexicographic order of lists. -/
theorem charsLess_iff : ∀ a b : List Char, charsLess a b = true ↔ a < b
  | [], [] => by simp [charsLess]
  | a :: as, [] => by simp [charsLess]
  | [], b :: bs => by simp only [charsLess, true_iff]; exact List.Lex.nil
  | a :: as, b :: bs => by
    unfold charsLess
    by_cases h1 : a.val < b.val
    · have h1c : a < b := h1
      simp only [h1, if_true, true_iff]
      exact List.Lex.rel h1c
    · by_cases h2 : b.val < a.val
      · have h2c : b < a := h2
        simp only [h1, h2, if_false, if_true]
        constructor
        · intro h; cases h
        · intro h
          exact absurd (List.Lex.rel h2c : b :: bs < a :: as) (lt_asymm h)
      · have h1c : ¬ a < b := h1
        have h2c : ¬ b < a := h2
        have hab : a = b := le_antisymm (not_lt.1 h2c) (not_lt.1 h1c)
        subst hab
        simp only [h1, if_false]
        rw [charsLess_iff as bs]
        exact (List.Lex.cons_iff).symm

/-- The comparison of the embedding is the order of `String`. -/
theorem stringLess_iff (a b : String) : stringLess a b = true ↔ a < b := by
  unfold stringLess
  rw [charsLess_iff, String.lt_iff_toList_lt]
  rfl

/-- Not being smaller is being at least as large. -/
theorem stringLess_false_iff (a b : String) : stringLess b a = false ↔ a ≤ b := by
  rw [← not_lt, ← stringLess_iff]
  simp

theorem bubble_no_sep (sep : Char) (x : String) (revPrefix : List String)
    (hx : strings.ContainsRune x sep = false) :
    bubble (sepLess sep) x revPrefix = x :: revPrefix := by
  cases revPrefix with
  | nil => rfl
  | cons y tl => simp [bubble, sepLess, hx]

theorem bubble_sep (sep : Char) (x : String) (withSep : List String)
    (hx : strings.ContainsRune x sep = true)
    (hA : ∀ y ∈ withSep, strings.ContainsRune y sep = true) :
    ∀ noSep : List String, (∀ y ∈ noSep, strings.ContainsRune y sep = false) →
      bubble (sepLess sep) x (noSep ++ withSep) = noSep ++ x :: withSep := by
  intro noSep
  induction noSep with
  | nil =>
    intro _
    cases withSep with
    | nil => rfl
    | cons y tl =>
      have hy := hA y (List.mem_cons_self y tl)
      simp [bubble, sepLess, hx, hy]
  | cons b tl ih =>
    intro hB
    have hb := hB b (List.mem_cons_self b tl)
    have htl : ∀ y ∈ tl, strings.ContainsRune y sep = false :=
      fun y hy => hB y (List.mem_cons_of_mem b hy)
    simp [bubble, sepLess, hx, hb, ih htl]

theorem foldl_bubble (sep : Char) (data : List String) : ∀ done : List String,
    data.foldl (fun revPrefix x => bubble (sepLess sep) x revPrefix)
      ((done.filter (fun y => !strings.ContainsRune y sep)).reverse ++
        (done.filter (fun y => strings.ContainsRune y sep)).reverse) =
      ((done ++ data).filter (fun y => !strings.ContainsRune y sep)).reverse ++
        ((done ++ data).filter (fun y => strings.ContainsRune y sep)).reverse := by
  induction data with
  | nil => intro done; simp
  | cons x rest ih =>
    intro done
    have hstep : bubble (sepLess sep) x
        ((done.filter (fun y => !strings.ContainsRune y sep)).reverse ++
          (done.filter (fun y => strings.ContainsRune y sep)).reverse) =
        (((done ++ [x]).filter (fun y => !strings.ContainsRune y sep)).reverse ++
          ((done ++ [x]).filter (fun y => strings.ContainsRune y sep)).reverse) := by
      cases hx : strings.ContainsRune x sep with
      | false =>
        rw [bubble_no_sep sep x _ hx]
        simp [List.filter_append, List.filter_cons, hx]
      | true =>
        rw [bubble_sep sep x _ hx (by
          intro y hy
          have := (List.mem_filter.1 (List.mem_reverse.1 hy)).2
          simpa using this) _ (by
          intro y hy
          have := (List.mem_filter.1 (List.mem_reverse.1 hy)).2
          simpa using this)]
        simp [List.filter_append, List.filter_cons, hx]
    rw [List.foldl_cons, hstep, ih (done ++ [x])]
    simp

/-- The stable sort that puts the paths with a separator first is the
stable partition of its input. -/
theorem sidebarList_eq (sep : Char) (sorted : List String) :
    sidebarList sep sorted =
      sorted.filter (fun y => strings.ContainsRune y sep) ++
        sorted.filter (fun y => !strings.ContainsRune y sep) := by
  have h := foldl_bubble sep sorted []
  simp only [List.filter_nil, List.reverse_nil, List.append_nil, List.nil_append] at h
  unfold sidebarList sort.SliceStable
  rw [h]
  simp

/-- C10: for a watch-list snapshot `L` and any result `S` of sorting it by
lower-cased name, the rendered list is a permutation of `L`, no path without
the separator comes before a path with it, and two paths that both have or
both lack the separator come in non-decreasing order of their lower-cased
names. -/
theorem sidebar_order (ToLower : String → String) (sep : Char) (L S : List String)
    (hS : SliceSorted (lowerLess ToLower) L S) :
    (sidebarList sep S).Perm L ∧
    (sidebarList sep S).Pairwise
      (fun a b => strings.ContainsRune b sep = true → strings.ContainsRune a sep = true) ∧
    (sidebarList sep S).Pairwise
      (fun a b => strings.ContainsRune a sep = strings.ContainsRune b sep →
        ToLower a ≤ ToLower b) := by
  obtain ⟨hperm, hsorted⟩ := hS
  have hsorted2 : S.Pairwise (fun a b => ToLower a ≤ ToLower b) :=
    hsorted.imp (fun {a b} h => (stringLess_false_iff (ToLower a) (ToLower b)).1 h)
  rw [sidebarList_eq]
  refine ⟨(List.filter_append_perm _ S).trans hperm, ?_, ?_⟩
  · rw [List.pairwise_append]
    refine ⟨?_, ?_, ?_⟩
    · rw [List.pairwise_iff_forall_sublist]
      intro a b hab _
      have ha : a ∈ S.filter (fun y => strings.ContainsRune y sep) :=
        hab.subset (List.mem_cons_self a [b])
      simpa using (List.mem_filter.1 ha).2
    · rw [List.pairwise_iff_forall_sublist]
      intro a b hab hb
      have hb2 : b ∈ S.filter (fun y => !strings.ContainsRune y sep) :=
        hab.subset (List.mem_cons_of_mem a (List.mem_cons_self b []))
      have := (List.mem_filter.1 hb2).2
      simp [hb] at this
    · intro a ha b _ _
      simpa using (List.mem_filter.1 ha).2
  · rw [List.pairwise_append]
    refine ⟨?_, ?_, ?_⟩
    · refine List.Pairwise.imp ?_ (hsorted2.sublist (List.filter_sublist S))
      intro a b h _
      exact h
    · refine List.Pairwise.imp ?_ (hsorted2.sublist (List.filter_sublist S))
      intro a b h _
      exact h
    · intro a ha b hb hab
      have h1 := (List.mem_filter.1 ha).2
      have h2 := (List.mem_filter.1 hb).2
      simp only [Bool.not_eq_true', decide_eq_true_eq] at h1 h2
      rw [h1, h2] at hab
      cases hab

/-- Witness of C10: four paths, two of them in a directory. -/
theorem sidebar_order_witness :
    sidebarList '/' ["A.md", "b.md", "docs/B.md", "docs/z.md"] =
      ["docs/B.md", "docs/z.md", "A.md", "b.md"] ∧
    (sidebarList '/' ["A.md", "b.md", "docs/B.md", "docs/z.md"]).Perm
      ["b.md", "docs/z.md", "A.md", "docs/B.md"] :=
  ⟨by decide,
   (sidebar_order asciiToLower '/' ["b.md", "docs/z.md", "A.md", "docs/B.md"]
      ["A.md", "b.md", "docs/B.md", "docs/z.md"] ⟨by decide, by decide⟩).1⟩

end Premark
